import Mathlib

/-!
Shallow embedding of the nmsi CLI (src/nmsi.py, src/downloader.py).

Filesystem paths are modelled relative to the nmsi install directory
(`self.install_dir`) as lists of path components.  A filesystem state
records the set of existing directories, the existing regular files with
their (byte) contents, and the set of files that have been chmod-ed 0o755.
Strings are Lean `String`s; Python string primitives used by the code
(`lower`, `startswith`, `split`, `rstrip`, `replace`, string comparison)
are embedded as explicit functions.  Definitions come first, then the
theorems for the claims.
-/

namespace Nmsi

/-- Filesystem state, relative to the install directory.  `dirs` are the
existing directories (`[]` is the install directory itself), `files` maps a
path to the file's content (the head of the list shadows older entries, so
consing a pair models an overwriting copy), `execs` records paths that were
made executable with mode 0o755. -/
structure FS where
  dirs : List (List String)
  files : List (List String × String)
  execs : List (List String)
deriving DecidableEq

/-- Content of the file at `p`, if it exists (`Path.read_text` / existence). -/
def getFile (fs : FS) (p : List String) : Option String :=
  (fs.files.find? (fun e => decide (e.1 = p))).map (fun e => e.2)

/-- Existence test for a regular file (`Path.exists` on the candidate
script paths, which are always regular files in this model). -/
def fileExists (fs : FS) (p : List String) : Bool :=
  (getFile fs p).isSome

/-- Overwriting copy of content `c` to path `p` (`shutil.copy2`). -/
def setFile (fs : FS) (p : List String) (c : String) : FS :=
  { fs with files := (p, c) :: fs.files }

/-- Mark the file at `p` executable (`Path.chmod(0o755)`). -/
def chmod755 (fs : FS) (p : List String) : FS :=
  { fs with execs := p :: fs.execs }

/-- Create the given directories (`mkdir(parents=True, exist_ok=True)`). -/
def ensureDirs (fs : FS) (ps : List (List String)) : FS :=
  { fs with dirs := ps ++ fs.dirs }

/-- Runtime environment of an `NMSI` instance: `self.os_type`,
`self.os_flavors` (ordered flavor fallback chain) and `self.arch`. -/
structure Env where
  os_type : String
  os_flavors : List String
  arch : String
deriving DecidableEq

/-- Python `s.startswith(pre)` on strings. -/
def pyStartswith (pre s : String) : Bool :=
  pre.data.isPrefixOf s.data

/-- Python code-point comparison of two characters (`<` on `str` compares
code points). -/
def charLt (a b : Char) : Bool :=
  decide (a.toNat < b.toNat)

/-- Lexicographic code-point comparison of character lists, the order
Python's `sorted` uses on strings. -/
def listCharLe : List Char → List Char → Bool
  | [], _ => true
  | _ :: _, [] => false
  | a :: as, b :: bs =>
    if charLt a b then true
    else if charLt b a then false
    else listCharLe as bs

/-- Python string order `a <= b` (code-point lexicographic). -/
def strLe (a b : String) : Bool :=
  listCharLe a.data b.data

/-- Loop body of `NMSI._find_install_script_in_root`: walk the OS flavor
chain, trying `{root}/{tool}/{os}/{arch}/install.sh` and then
`{root}/{tool}/{os}/general/install.sh` for each flavor in order. -/
def findFlavorScript (fs : FS) (root : List String) (tool arch : String) :
    List String → Option (List String × String × String)
  | [] => none
  | os_name :: rest =>
    let p1 := root ++ [tool, os_name, arch, "install.sh"]
    if fileExists fs p1 then some (p1, os_name, arch)
    else
      let p2 := root ++ [tool, os_name, "general", "install.sh"]
      if fileExists fs p2 then some (p2, os_name, "general")
      else findFlavorScript fs root tool arch rest

/-- Embedding of `NMSI._find_install_script_in_root`: the flavor loop, then
the two `universal` fallbacks. -/
def find_install_script_in_root (fs : FS) (env : Env) (root : List String)
    (tool : String) : Option (List String × String × String) :=
  match findFlavorScript fs root tool env.arch env.os_flavors with
  | some r => some r
  | none =>
    let pu := root ++ [tool, "universal", env.arch, "install.sh"]
    if fileExists fs pu then some (pu, "universal", env.arch)
    else
      let pg := root ++ [tool, "universal", "general", "install.sh"]
      if fileExists fs pg then some (pg, "universal", "general")
      else none

/-- Candidate paths in the exact order the specification prescribes for a
single root: per flavor (chain order) the arch-specific then the
arch-general path, and only afterwards the two `universal` paths.  This is
the spec-side description that claim C2 compares the code against. -/
def specCandidateOrder (env : Env) (root : List String) (tool : String) :
    List (List String) :=
  (env.os_flavors.flatMap fun f =>
    [root ++ [tool, f, env.arch, "install.sh"],
     root ++ [tool, f, "general", "install.sh"]])
  ++ [root ++ [tool, "universal", env.arch, "install.sh"],
      root ++ [tool, "universal", "general", "install.sh"]]

/-- Names of the immediate subdirectories of directory `d`
(`Path.iterdir` restricted to entries that are directories). -/
def childDirs (fs : FS) (d : List String) : List String :=
  fs.dirs.filterMap (fun p => if p.dropLast = d then p.getLast? else none)

/-- Embedding of `NMSI._iter_install_roots`: nothing if the install
directory does not exist; otherwise the `@`-prefixed subdirectories sorted
by name, then the install directory itself. -/
def iter_install_roots (fs : FS) : List (List String) :=
  if ([] : List String) ∈ fs.dirs then
    ((List.insertionSort (fun a b => strLe a b = true)
        ((childDirs fs []).filter (fun n => pyStartswith "@" n))).map
      (fun n => [n])) ++ [[]]
  else []

/-- Embedding of `NMSI._find_install_script`: first per-root hit over the
roots in search order. -/
def find_install_script (fs : FS) (env : Env) (tool : String) :
    Option (List String × String × String) :=
  (iter_install_roots fs).findSome?
    (fun root => find_install_script_in_root fs env root tool)

/-- Overlay root names as the specification describes them: the
`@`-prefixed directories directly under the install directory, in
alphabetical (code-point) order of name. -/
def specOverlayNames (fs : FS) : List String :=
  List.insertionSort (fun a b => strLe a b = true)
    ((childDirs fs []).filter (fun n => pyStartswith "@" n))

/-- Record of a spawned child process: the program, the script passed as
its argument, and the working directory handed to `subprocess.run`. -/
structure Spawn where
  prog : String
  script : List String
  cwd : List String
deriving DecidableEq

/-- Embedding of `NMSI.cmd_install`.  `child` is the outcome of
`subprocess.run(["bash", script], check=True, cwd=script.parent)`: `none`
models a missing `bash` (`FileNotFoundError`, no child process spawned),
`some rc` an actual child exiting with code `rc` (`check=True` raises
`CalledProcessError` when `rc ≠ 0`).  The result is the command's exit
code together with the child processes spawned. -/
def cmd_install (fs : FS) (env : Env) (tool : String) (child : Option Int) :
    Int × List Spawn :=
  match find_install_script fs env tool with
  | none => (1, [])
  | some (p, _, _) =>
    match child with
    | none => (1, [])
    | some rc => (if rc = 0 then 0 else 1, [⟨"bash", p, p.dropLast⟩])

/-- Embedding of `NMSI.cmd_show`: resolve, then read and print the script
content (`none` in the second component when nothing was printed because
resolution or `read_text` failed). -/
def cmd_show (fs : FS) (env : Env) (tool : String) : Int × Option String :=
  match find_install_script fs env tool with
  | none => (1, none)
  | some (p, _, _) =>
    match getFile fs p with
    | some c => (0, some c)
    | none => (1, none)

/-- Python truthiness fallback `a if a else b` for an optional string
(`argparse` yields `None` for an absent option; an empty string is falsy). -/
def pyOrElse (a : Option String) (b : String) : String :=
  match a with
  | some s => if s = "" then b else s
  | none => b

/-- Embedding of `NMSI.cmd_add`.  `script` is `none` when the source path
does not exist, `some (isFile, content)` otherwise; the copy itself is
modelled as succeeding (the claims concern a readable script file). -/
def cmd_add (fs : FS) (env : Env) (tool : String)
    (osArg archArg : Option String) (script : Option (Bool × String)) :
    Int × FS :=
  match script with
  | none => (1, fs)
  | some (isFile, content) =>
    if !isFile then (1, fs)
    else
      let os_type := pyOrElse osArg env.os_type
      let arch := pyOrElse archArg env.arch
      let dest := [tool, os_type, arch, "install.sh"]
      let fs1 := ensureDirs fs [[], [tool], [tool, os_type], [tool, os_type, arch]]
      (0, chmod755 (setFile fs1 dest content) dest)

/-- Python `Path(name).suffix == ".sh"`: the name has a real `.sh`
extension (a nonempty stem followed by `.sh`). -/
def hasShSuffix (name : String) : Bool :=
  decide (3 < name.data.length) && ".sh".data.isSuffixOf name.data

/-- Per-file body of the `Downloader._copy_scripts` loop: create the
parent directory, copy the file to `dest ++ rel`, and chmod it 0o755 when
its name carries the `.sh` suffix. -/
def copyStep (dest : List String) (acc : FS) (e : List String × String) : FS :=
  let df := dest ++ e.1
  let acc1 := setFile (ensureDirs acc [df.dropLast]) df e.2
  if hasShSuffix (df.getLastD "") then chmod755 acc1 df else acc1

/-- Embedding of `Downloader._copy_scripts`: ensure the destination
directory exists, then copy every source file (path relative to the source
directory, paired with its content) into the destination, overwriting but
never deleting. -/
def copy_scripts (fs : FS) (dest : List String)
    (srcFiles : List (List String × String)) : FS :=
  srcFiles.foldl (copyStep dest) (ensureDirs fs [dest])

/-- Characters Python's `urlsplit` accepts in a URL scheme after the
leading letter: letters, digits, `+`, `-` and `.`. -/
def isSchemeChar (c : Char) : Bool :=
  c.isAlphanum || c = '+' || c = '-' || c = '.'

/-- Scheme scan of `urllib.parse.urlsplit`: consume scheme characters up
to the first `:`; `none` when no well-formed `scheme:` head exists. -/
def splitSchemeAux (acc : List Char) : List Char → Option (List Char × List Char)
  | [] => none
  | c :: cs =>
    if c = ':' then some (acc, cs)
    else if isSchemeChar c then splitSchemeAux (acc ++ [c]) cs
    else none

/-- Scheme splitting of `urllib.parse.urlsplit`: when the URL starts with
an ASCII letter and has a `scheme:` head of scheme characters, return the
lower-cased scheme and the rest after the `:`; otherwise no scheme. -/
def splitScheme (url : List Char) : List Char × List Char :=
  match url with
  | [] => ([], [])
  | c :: cs =>
    if c.isAlpha then
      match splitSchemeAux [] (c :: cs) with
      | some (s, r) => (s.map Char.toLower, r)
      | none => ([], c :: cs)
    else ([], c :: cs)

/-- Netloc stripping of `urlsplit`: after the scheme, a leading `//` opens
a netloc that runs up to the next `/`, `?` or `#`. -/
def dropNetloc (rest : List Char) : List Char :=
  if ['/', '/'].isPrefixOf rest then
    (rest.drop 2).dropWhile (fun c => c ≠ '/' && c ≠ '?' && c ≠ '#')
  else rest

/-- CPython `urllib.parse._splitparams`, path part: cut `;params` off at
the first `;` at or after the last `/` (at the first `;` anywhere when the
path has no `/`); a path without such a `;` is returned unchanged. -/
def splitParamsPath (l : List Char) : List Char :=
  if '/' ∈ l then
    let pre := (l.reverse.dropWhile (fun c => c ≠ '/')).reverse
    let lastSeg := (l.reverse.takeWhile (fun c => c ≠ '/')).reverse
    if ';' ∈ lastSeg then pre ++ lastSeg.takeWhile (fun c => c ≠ ';') else l
  else if ';' ∈ l then l.takeWhile (fun c => c ≠ ';') else l

/-- Schemes for which CPython `urlparse` splits `;params` off the path
(`urllib.parse.uses_params`). -/
def uses_params : List String :=
  ["", "ftp", "hdl", "prospero", "http", "imap", "https", "shttp", "rtsp",
   "rtsps", "rtspu", "sip", "sips", "mms", "sftp", "tel"]

/-- Path component of `urllib.parse.urlparse` (for URLs without the
removed control characters): the `urlsplit` path — rest after scheme and
netloc, cut before any fragment (`#`) and query (`?`) — with `;params`
split off its last segment when the (lower-cased) scheme uses params. -/
def urlPath (url : List Char) : List Char :=
  let scheme := (splitScheme url).1
  let rest := ((dropNetloc (splitScheme url).2).takeWhile
    (fun c => c ≠ '#')).takeWhile (fun c => c ≠ '?')
  if String.mk scheme ∈ uses_params ∧ ';' ∈ rest then splitParamsPath rest
  else rest

/-- String-level `urlparse(url).scheme`. -/
def urlparse_scheme (url : String) : String :=
  String.mk (splitScheme url.data).1

/-- String-level `urlparse(url).path`. -/
def urlparse_path (url : String) : String :=
  String.mk (urlPath url.data)

/-- Leftmost-occurrence replacement, Python `s.replace(pat, rep, 1)` for a
nonempty pattern. -/
def replaceFirst (pat rep : List Char) : List Char → List Char
  | [] => []
  | c :: cs =>
    if pat.isPrefixOf (c :: cs) then rep ++ (c :: cs).drop pat.length
    else c :: replaceFirst pat rep cs

/-- Embedding of `Downloader.normalize_url`: rewrite a `git://` head to
`https://` (first occurrence only), keep everything else as-is. -/
def normalize_url (url : String) : String :=
  if pyStartswith "git://" url then
    String.mk (replaceFirst "git://".data "https://".data url.data)
  else url

/-- Which downloader class `Downloader.create_downloader` instantiates,
with the URL it receives. -/
inductive DownloaderKind where
  | git (url : String)
  | http (url : String)
  | file (url : String)
deriving DecidableEq

/-- Embedding of `Downloader.create_downloader`; `Except.error` models the
raised `ValueError`. -/
def create_downloader (url : String) : Except String DownloaderKind :=
  if pyStartswith "git@" url then Except.ok (DownloaderKind.git url)
  else
    let scheme := String.mk ((urlparse_scheme url).data.map Char.toLower)
    if pyStartswith "git://" url || scheme = "git" then
      Except.ok (DownloaderKind.git (normalize_url url))
    else if scheme = "http" || scheme = "https" then
      Except.ok (DownloaderKind.http url)
    else if scheme = "file" then
      Except.ok (DownloaderKind.file url)
    else Except.error ("Unsupported URL scheme: " ++ scheme)

/-- Python `url.split(":", 1)[-1]`: everything after the first `:`, or the
whole string when there is no `:`. -/
def afterFirstColon (url : List Char) : List Char :=
  if url.any (fun c => c = ':') then (url.dropWhile (fun c => c ≠ ':')).drop 1
  else url

/-- Python `path.rstrip("/")`: remove all trailing slashes. -/
def rstripSlash (l : List Char) : List Char :=
  (l.reverse.dropWhile (fun c => c = '/')).reverse

/-- Python `path.split("/")[-1]`: the substring after the last `/`. -/
def lastSlashComponent (l : List Char) : List Char :=
  (l.reverse.takeWhile (fun c => c ≠ '/')).reverse

/-- Python `name.split(".")[0]`: the prefix before the first `.`. -/
def beforeFirstDot (l : List Char) : List Char :=
  l.takeWhile (fun c => c ≠ '.')

/-- Embedding of `NMSI._get_repo_name_from_url`; `Except.error` models the
raised `ValueError`. -/
def get_repo_name_from_url (url : String) : Except String String :=
  let path :=
    if pyStartswith "git@" url then afterFirstColon url.data
    else if urlparse_scheme url ≠ "" then (urlparse_path url).data
    else url.data
  let path1 := rstripSlash path
  if path1 = [] then Except.error ("Invalid URL for repository name: " ++ url)
  else
    let name := lastSlashComponent path1
    let name1 := if name.any (fun c => c = '.') then beforeFirstDot name else name
    if name1 = [] then Except.error ("Invalid URL for repository name: " ++ url)
    else Except.ok (String.mk name1)

/-- Overlay destination directory name picked by `cmd_update --from`: the
repository identifier prefixed with the `@` marker. -/
def overlayDirName (name : String) : String :=
  "@" ++ name

/-- Abstract description of what sits at the local source path of a
`file://` URL. -/
inductive LocalSource where
  | missing
  | file (name : String) (content : String)
  | dir (installFiles : Option (List (List String × String)))
      (allFiles : List (List String × String))
deriving DecidableEq

/-- Embedding of `FileDownloader.download` into destination `dest`: a
missing source fails with exit 1; a single file with basename `name` is
copied to `dest/{name}` and chmod-ed 0o755; a directory is copied with
`_copy_scripts`, preferring its `install` subdirectory when that exists
(`installFiles` holds the files relative to the `install` subdirectory,
`allFiles` those relative to the directory itself). -/
def file_download (fs : FS) (dest : List String) (src : LocalSource) :
    Int × FS :=
  match src with
  | LocalSource.missing => (1, fs)
  | LocalSource.file name content =>
    let fs1 := ensureDirs fs [dest]
    let df := dest ++ [name]
    (0, chmod755 (setFile (ensureDirs fs1 [df.dropLast]) df content) df)
  | LocalSource.dir installFiles allFiles =>
    let fs1 := ensureDirs fs [dest]
    match installFiles with
    | some ifs => (0, copy_scripts fs1 dest ifs)
    | none => (0, copy_scripts fs1 dest allFiles)

/-- Python `machine.lower()` (ASCII lowering; machine tokens are ASCII). -/
def pyLower (s : String) : String :=
  String.mk (s.data.map Char.toLower)

/-- Embedding of `NMSI._get_arch` as a function of `platform.machine()`;
the local `machine = platform.machine().lower()` is inlined as
`pyLower machine`. -/
def get_arch (machine : String) : String :=
  if pyLower machine = "x86_64" ∨ pyLower machine = "amd64" then "amd64"
  else if pyLower machine = "aarch64" ∨ pyLower machine = "arm64" then "arm64"
  else if pyStartswith "arm" (pyLower machine) then "arm"
  else if pyLower machine = "i386" ∨ pyLower machine = "i686" then "i386"
  else pyLower machine

/-- Helper `_has_any_install_script` of `cmd_list`: some file named
`install.sh` exists strictly below the tool directory `troot`
(`Path.rglob("install.sh")`). -/
def has_any_install_script (fs : FS) (troot : List String) : Bool :=
  fs.files.any (fun e =>
    troot.isPrefixOf e.1 && decide (troot.length < e.1.length)
      && decide (e.1.getLast? = some "install.sh"))

/-- Tool names printed by `cmd_list --all`: after `_ensure_install_dir`,
for every root the child directories whose name does not start with `@`
and that contain some install script, collected as a set and sorted. -/
def list_all_tools (fs : FS) : List String :=
  let fs1 := ensureDirs fs [[]]
  List.insertionSort (fun a b => strLe a b = true)
    (((iter_install_roots fs1).flatMap (fun root =>
      (childDirs fs1 root).filter (fun n =>
        !pyStartswith "@" n && has_any_install_script fs1 (root ++ [n])))).dedup)

/-- Tool names printed by `cmd_list` without `--all`: candidate names from
every root (child directories, `@`-prefixed ones skipped), kept when
resolution succeeds for the current environment; sorted. -/
def list_current_tools (fs : FS) (env : Env) : List String :=
  let fs1 := ensureDirs fs [[]]
  List.insertionSort (fun a b => strLe a b = true)
    ((((iter_install_roots fs1).flatMap (fun root =>
      (childDirs fs1 root).filter (fun n => !pyStartswith "@" n))).dedup).filter
      (fun n => (find_install_script fs1 env n).isSome))

end Nmsi

namespace Nmsi

theorem findFlavorScript_eq_find? (fs : FS) (root : List String)
    (tool arch : String) (fl : List String) :
    (findFlavorScript fs root tool arch fl).map (fun r => r.1)
      = (fl.flatMap fun f =>
          [root ++ [tool, f, arch, "install.sh"],
           root ++ [tool, f, "general", "install.sh"]]).find?
        (fun p => fileExists fs p) := by
  induction fl with
  | nil => rfl
  | cons f rest ih =>
    simp only [findFlavorScript, List.flatMap_cons, List.cons_append,
      List.nil_append, List.find?_cons]
    by_cases h1 : fileExists fs (root ++ [tool, f, arch, "install.sh"])
    · simp [h1]
    · simp only [h1, if_false, Bool.false_eq_true]
      by_cases h2 : fileExists fs (root ++ [tool, f, "general", "install.sh"])
      · simp [h1, h2, List.find?_cons]
      · simp only [h2, if_false, Bool.false_eq_true]
        exact ih

/-- C2: within one root the resolver returns exactly the first existing
candidate of the spec's ordered candidate list: for each OS flavor in chain
order, the arch-specific path then the arch-general path, and only after
all flavors the `universal` arch-specific and `universal` general paths. -/
theorem find_in_root_first_existing (fs : FS) (env : Env)
    (root : List String) (tool : String) :
    (find_install_script_in_root fs env root tool).map (fun r => r.1)
      = (specCandidateOrder env root tool).find? (fun p => fileExists fs p) := by
  unfold find_install_script_in_root specCandidateOrder
  rw [List.find?_append, ← findFlavorScript_eq_find?]
  cases h : findFlavorScript fs root tool env.arch env.os_flavors with
  | some r => simp [h]
  | none =>
    simp only [h, Option.map_none', Option.none_or]
    by_cases h1 : fileExists fs (root ++ [tool, "universal", env.arch, "install.sh"])
    · simp [h1, List.find?_cons]
    · by_cases h2 : fileExists fs (root ++ [tool, "universal", "general", "install.sh"])
      · simp [h1, h2, List.find?_cons]
      · simp [h1, h2, List.find?_cons]

theorem listCharLe_cons (a b : Char) (as bs : List Char) :
    listCharLe (a :: as) (b :: bs) = true
      ↔ (a.toNat < b.toNat ∨ (a.toNat = b.toNat ∧ listCharLe as bs = true)) := by
  simp only [listCharLe, charLt]
  by_cases h : a.toNat < b.toNat
  · simp [h]
  · by_cases h2 : b.toNat < a.toNat
    · rw [if_neg (by simpa using h), if_pos (by simpa using h2)]
      constructor
      · intro hf
        exact absurd hf (by simp)
      · rintro (hf | ⟨hf, _⟩) <;> omega
    · have he : a.toNat = b.toNat := by omega
      simp [h, h2, he]

theorem listCharLe_trans :
    ∀ as bs cs, listCharLe as bs = true → listCharLe bs cs = true →
      listCharLe as cs = true := by
  intro as
  induction as with
  | nil => intro bs cs _ _; rfl
  | cons a as ih =>
    intro bs cs h1 h2
    cases bs with
    | nil => exact absurd h1 (by simp [listCharLe])
    | cons b bs =>
      cases cs with
      | nil => exact absurd h2 (by simp [listCharLe])
      | cons c cs =>
        rw [listCharLe_cons] at h1 h2 ⊢
        rcases h1 with h1 | ⟨h1e, h1r⟩
        · rcases h2 with h2 | ⟨h2e, _⟩
          · exact Or.inl (by omega)
          · exact Or.inl (by omega)
        · rcases h2 with h2 | ⟨h2e, h2r⟩
          · exact Or.inl (by omega)
          · exact Or.inr ⟨by omega, ih bs cs h1r h2r⟩

theorem listCharLe_total :
    ∀ as bs, listCharLe as bs = true ∨ listCharLe bs as = true := by
  intro as
  induction as with
  | nil => intro bs; exact Or.inl rfl
  | cons a as ih =>
    intro bs
    cases bs with
    | nil => exact Or.inr rfl
    | cons b bs =>
      rw [listCharLe_cons, listCharLe_cons]
      rcases Nat.lt_trichotomy a.toNat b.toNat with h | h | h
      · exact Or.inl (Or.inl h)
      · rcases ih bs with h' | h'
        · exact Or.inl (Or.inr ⟨h, h'⟩)
        · exact Or.inr (Or.inr ⟨h.symm, h'⟩)
      · exact Or.inr (Or.inl h)

theorem strLe_trans (a b c : String) (h1 : strLe a b = true)
    (h2 : strLe b c = true) : strLe a c = true :=
  listCharLe_trans a.data b.data c.data h1 h2

theorem strLe_total (a b : String) : strLe a b = true ∨ strLe b a = true :=
  listCharLe_total a.data b.data

theorem findSome?_eq_of_find?_isSome {α β : Type} (f : α → Option β) :
    ∀ (l : List α) (a : α),
      l.find? (fun x => (f x).isSome) = some a → l.findSome? f = f a := by
  intro l
  induction l with
  | nil => intro a h; simp at h
  | cons x xs ih =>
    intro a h
    rw [List.find?_cons] at h
    cases hx : (f x).isSome with
    | true =>
      rw [hx] at h
      cases h
      rw [List.findSome?_cons]
      cases hfx : f x with
      | some b => rfl
      | none => rw [hfx] at hx; simp at hx
    | false =>
      rw [hx] at h
      rw [List.findSome?_cons]
      cases hfx : f x with
      | some b => rw [hfx] at hx; simp at hx
      | none => exact ih a h

/-- C1: with the install directory present, resolution searches the
alphabetically-sorted overlay roots first and the primary root last,
returning the first per-root match; in particular, whenever some overlay
root matches, the result is the match of the alphabetically first matching
overlay root, regardless of anything the primary root contains. -/
theorem overlay_roots_precede_primary (fs : FS) (env : Env) (tool : String)
    (h : ([] : List String) ∈ fs.dirs) :
    find_install_script fs env tool
        = ((specOverlayNames fs).map (fun n => [n]) ++ [([] : List String)]).findSome?
            (fun root => find_install_script_in_root fs env root tool)
      ∧ List.Pairwise (fun a b => strLe a b = true) (specOverlayNames fs)
      ∧ ∀ n, (specOverlayNames fs).find?
            (fun m => (find_install_script_in_root fs env [m] tool).isSome) = some n →
          find_install_script fs env tool
            = find_install_script_in_root fs env [n] tool := by
  have hroots : iter_install_roots fs
      = (specOverlayNames fs).map (fun n => [n]) ++ [([] : List String)] := by
    unfold iter_install_roots specOverlayNames
    rw [if_pos h]
  refine ⟨by rw [find_install_script, hroots], ?_, ?_⟩
  · exact @List.sorted_insertionSort String (fun a b => strLe a b = true)
      (fun a b => instDecidableEqBool _ _) ⟨fun a b => strLe_total a b⟩
      ⟨fun a b c => strLe_trans a b c⟩ _
  · intro n hn
    rw [find_install_script, hroots, List.findSome?_append]
    have hmap : ((specOverlayNames fs).map (fun n => [n])).find?
        (fun root => (find_install_script_in_root fs env root tool).isSome)
        = some [n] := by
      rw [List.find?_map]
      have : ((fun root => (find_install_script_in_root fs env root tool).isSome)
          ∘ (fun n => [n]))
          = fun m => (find_install_script_in_root fs env [m] tool).isSome := rfl
      rw [this, hn]
      rfl
    have hfs := findSome?_eq_of_find?_isSome
      (fun root => find_install_script_in_root fs env root tool)
      ((specOverlayNames fs).map (fun n => [n])) [n] hmap
    rw [hfs]
    have hsome : (find_install_script_in_root fs env [n] tool).isSome = true := by
      have := List.find?_some hmap
      simpa using this
    exact Option.or_of_isSome hsome

theorem overlay_roots_precede_primary_witness :
    (([] : List String) ∈ (FS.mk
        [[], ["@ov"], ["foo"], ["@ov", "foo"], ["@ov", "foo", "universal"],
         ["@ov", "foo", "universal", "general"], ["foo", "linux"],
         ["foo", "linux", "amd64"]]
        [(["@ov", "foo", "universal", "general", "install.sh"], "overlay"),
         (["foo", "linux", "amd64", "install.sh"], "primary")] []).dirs)
    ∧ find_install_script (FS.mk
        [[], ["@ov"], ["foo"], ["@ov", "foo"], ["@ov", "foo", "universal"],
         ["@ov", "foo", "universal", "general"], ["foo", "linux"],
         ["foo", "linux", "amd64"]]
        [(["@ov", "foo", "universal", "general", "install.sh"], "overlay"),
         (["foo", "linux", "amd64", "install.sh"], "primary")] [])
        (Env.mk "linux" ["linux"] "amd64") "foo"
      = find_install_script_in_root (FS.mk
        [[], ["@ov"], ["foo"], ["@ov", "foo"], ["@ov", "foo", "universal"],
         ["@ov", "foo", "universal", "general"], ["foo", "linux"],
         ["foo", "linux", "amd64"]]
        [(["@ov", "foo", "universal", "general", "install.sh"], "overlay"),
         (["foo", "linux", "amd64", "install.sh"], "primary")] [])
        (Env.mk "linux" ["linux"] "amd64") ["@ov"] "foo" :=
  ⟨by decide,
   (overlay_roots_precede_primary _ (Env.mk "linux" ["linux"] "amd64") "foo"
      (by decide)).2.2 "@ov" (by decide)⟩

theorem find_script_none_of_no_candidate (fs : FS) (env : Env) (tool : String)
    (h : ∀ root ∈ iter_install_roots fs, ∀ p ∈ specCandidateOrder env root tool,
      fileExists fs p = false) :
    find_install_script fs env tool = none := by
  unfold find_install_script
  rw [List.findSome?_eq_none_iff]
  intro root hroot
  have h2 := find_in_root_first_existing fs env root tool
  have h3 : (specCandidateOrder env root tool).find? (fun p => fileExists fs p)
      = none := by
    rw [List.find?_eq_none]
    intro p hp
    simp [h root hroot p hp]
  rw [h3] at h2
  exact Option.map_eq_none'.mp h2

/-- C3: when no root/flavor/arch candidate file exists for the tool, both
`install` and `show` exit with code 1, `install` spawns no child process
and `show` prints no script. -/
theorem install_show_exit_one_without_spawn (fs : FS) (env : Env)
    (tool : String)
    (h : ∀ root ∈ iter_install_roots fs, ∀ p ∈ specCandidateOrder env root tool,
      fileExists fs p = false) :
    (∀ child, cmd_install fs env tool child = (1, []))
      ∧ cmd_show fs env tool = (1, none) := by
  have hn := find_script_none_of_no_candidate fs env tool h
  constructor
  · intro child
    unfold cmd_install
    rw [hn]
  · unfold cmd_show
    rw [hn]

theorem install_show_exit_one_without_spawn_witness :
    cmd_install (FS.mk [[]] [] []) (Env.mk "linux" ["linux"] "amd64") "foo"
        (some 0) = (1, [])
      ∧ cmd_show (FS.mk [[]] [] []) (Env.mk "linux" ["linux"] "amd64") "foo"
        = (1, none) :=
  ⟨(install_show_exit_one_without_spawn (FS.mk [[]] [] [])
      (Env.mk "linux" ["linux"] "amd64") "foo" (by decide)).1 (some 0),
   (install_show_exit_one_without_spawn (FS.mk [[]] [] [])
      (Env.mk "linux" ["linux"] "amd64") "foo" (by decide)).2⟩

theorem findFlavorScript_shape (fs : FS) (root : List String)
    (tool arch : String) :
    ∀ (fl : List String) (p : List String) (o a : String),
      findFlavorScript fs root tool arch fl = some (p, o, a) →
        p = root ++ [tool, o, a, "install.sh"] := by
  intro fl
  induction fl with
  | nil => intro p o a hx; simp [findFlavorScript] at hx
  | cons f rest ih =>
    intro p o a hx
    simp only [findFlavorScript] at hx
    split_ifs at hx with h1 h2
    · simp only [Option.some.injEq, Prod.mk.injEq] at hx
      obtain ⟨hp, ho, ha⟩ := hx
      subst hp; subst ho; subst ha
      rfl
    · simp only [Option.some.injEq, Prod.mk.injEq] at hx
      obtain ⟨hp, ho, ha⟩ := hx
      subst hp; subst ho; subst ha
      rfl
    · exact ih p o a hx

theorem find_in_root_shape (fs : FS) (env : Env) (root : List String)
    (tool : String) (p : List String) (o a : String)
    (hx : find_install_script_in_root fs env root tool = some (p, o, a)) :
    p = root ++ [tool, o, a, "install.sh"] := by
  unfold find_install_script_in_root at hx
  cases hf : findFlavorScript fs root tool env.arch env.os_flavors with
  | some r =>
    rw [hf] at hx
    simp only [Option.some.injEq] at hx
    subst hx
    exact findFlavorScript_shape fs root tool env.arch env.os_flavors p o a hf
  | none =>
    rw [hf] at hx
    simp only at hx
    split_ifs at hx with h1 h2
    · simp only [Option.some.injEq, Prod.mk.injEq] at hx
      obtain ⟨hp, ho, ha⟩ := hx
      subst hp; subst ho; subst ha
      rfl
    · simp only [Option.some.injEq, Prod.mk.injEq] at hx
      obtain ⟨hp, ho, ha⟩ := hx
      subst hp; subst ho; subst ha
      rfl

theorem find_script_shape (fs : FS) (env : Env) (tool : String)
    (p : List String) (o a : String)
    (hx : find_install_script fs env tool = some (p, o, a)) :
    ∃ root ∈ iter_install_roots fs, p = root ++ [tool, o, a, "install.sh"] := by
  unfold find_install_script at hx
  obtain ⟨root, hmem, hr⟩ := List.exists_of_findSome?_eq_some hx
  exact ⟨root, hmem, find_in_root_shape fs env root tool p o a hr⟩

/-- C9: when `install` resolves a script and runs it, the single spawned
`bash` child uses the script's containing `{root}/{tool}/{os}/{arch}`
directory as its working directory, and the command exits 0 exactly when
the child exits 0 (1 otherwise). -/
theorem install_child_cwd_and_exit (fs : FS) (env : Env) (tool : String)
    (p : List String) (o a : String) (rc : Int)
    (h : find_install_script fs env tool = some (p, o, a)) :
    cmd_install fs env tool (some rc)
        = (if rc = 0 then 0 else 1, [Spawn.mk "bash" p p.dropLast])
      ∧ ∃ root ∈ iter_install_roots fs,
          p = root ++ [tool, o, a, "install.sh"]
            ∧ p.dropLast = root ++ [tool, o, a] := by
  constructor
  · unfold cmd_install
    rw [h]
  · obtain ⟨root, hmem, hp⟩ := find_script_shape fs env tool p o a h
    refine ⟨root, hmem, hp, ?_⟩
    rw [hp]
    rw [show root ++ [tool, o, a, "install.sh"]
        = (root ++ [tool, o, a]) ++ ["install.sh"] by simp]
    exact List.dropLast_concat

theorem install_child_cwd_and_exit_witness :
    find_install_script
        (FS.mk [[], ["foo"], ["foo", "linux"], ["foo", "linux", "amd64"]]
          [(["foo", "linux", "amd64", "install.sh"], "echo hi")] [])
        (Env.mk "linux" ["linux"] "amd64") "foo"
      = some (["foo", "linux", "amd64", "install.sh"], "linux", "amd64")
    ∧ cmd_install
        (FS.mk [[], ["foo"], ["foo", "linux"], ["foo", "linux", "amd64"]]
          [(["foo", "linux", "amd64", "install.sh"], "echo hi")] [])
        (Env.mk "linux" ["linux"] "amd64") "foo" (some 7)
      = (1, [Spawn.mk "bash" ["foo", "linux", "amd64", "install.sh"]
          ["foo", "linux", "amd64"]]) :=
  ⟨by decide,
   (install_child_cwd_and_exit
      (FS.mk [[], ["foo"], ["foo", "linux"], ["foo", "linux", "amd64"]]
        [(["foo", "linux", "amd64", "install.sh"], "echo hi")] [])
      (Env.mk "linux" ["linux"] "amd64") "foo"
      ["foo", "linux", "amd64", "install.sh"] "linux" "amd64" 7 (by decide)).1⟩

/-- C7: `add` succeeds on a readable script file, unconditionally
overwrites the fully qualified primary-root path
`{tool}/{os}/{arch}/install.sh` with the file's content, and an immediately
following `show` whose resolution selects that entry prints exactly that
content. -/
theorem add_then_show_roundtrip (fs : FS) (env : Env) (tool : String)
    (osArg archArg : Option String) (content : String) :
    (cmd_add fs env tool osArg archArg (some (true, content))).1 = 0
      ∧ getFile (cmd_add fs env tool osArg archArg (some (true, content))).2
          [tool, pyOrElse osArg env.os_type, pyOrElse archArg env.arch,
            "install.sh"] = some content
      ∧ (find_install_script
            (cmd_add fs env tool osArg archArg (some (true, content))).2 env tool
          = some ([tool, pyOrElse osArg env.os_type, pyOrElse archArg env.arch,
              "install.sh"], pyOrElse osArg env.os_type,
              pyOrElse archArg env.arch) →
          cmd_show (cmd_add fs env tool osArg archArg (some (true, content))).2
            env tool = (0, some content)) := by
  refine ⟨rfl, ?_, ?_⟩
  · simp [cmd_add, chmod755, setFile, ensureDirs, getFile]
  · intro hres
    unfold cmd_show
    rw [hres]
    simp [cmd_add, chmod755, setFile, ensureDirs, getFile]

theorem add_then_show_roundtrip_witness :
    cmd_show
        (cmd_add (FS.mk [] [] []) (Env.mk "linux" ["linux"] "amd64") "foo"
          (some "linux") (some "amd64") (some (true, "echo hi"))).2
        (Env.mk "linux" ["linux"] "amd64") "foo"
      = (0, some "echo hi") :=
  (add_then_show_roundtrip (FS.mk [] [] []) (Env.mk "linux" ["linux"] "amd64")
    "foo" (some "linux") (some "amd64") "echo hi").2.2 (by decide)

theorem getFile_setFile (fs : FS) (p : List String) (c : String)
    (q : List String) :
    getFile (setFile fs p c) q = if p = q then some c else getFile fs q := by
  simp only [getFile, setFile, List.find?_cons]
  by_cases h : p = q
  · simp [h]
  · simp [h]

theorem getFile_copyStep (dest : List String) (st : FS)
    (e : List String × String) (q : List String) :
    getFile (copyStep dest st e) q
      = if dest ++ e.1 = q then some e.2 else getFile st q := by
  have h1 : getFile (copyStep dest st e) q
      = getFile (setFile (ensureDirs st [(dest ++ e.1).dropLast])
          (dest ++ e.1) e.2) q := by
    simp only [copyStep]
    split_ifs <;> rfl
  rw [h1, getFile_setFile]
  split_ifs <;> rfl

theorem getFile_foldl_copyStep_untouched (dest : List String) :
    ∀ (es : List (List String × String)) (st : FS) (q : List String),
      (∀ e ∈ es, dest ++ e.1 ≠ q) →
      getFile (es.foldl (copyStep dest) st) q = getFile st q := by
  intro es
  induction es with
  | nil => intro st q _; rfl
  | cons e es ih =>
    intro st q h
    rw [List.foldl_cons, ih _ q (fun e' he' => h e' (List.mem_cons_of_mem e he')),
      getFile_copyStep, if_neg (h e (List.mem_cons_self e es))]

theorem getFile_foldl_copyStep_isSome (dest : List String) :
    ∀ (es : List (List String × String)) (st : FS) (q : List String),
      (getFile st q).isSome = true →
      (getFile (es.foldl (copyStep dest) st) q).isSome = true := by
  intro es
  induction es with
  | nil => intro st q h; exact h
  | cons e es ih =>
    intro st q h
    rw [List.foldl_cons]
    apply ih
    rw [getFile_copyStep]
    by_cases he : dest ++ e.1 = q
    · rw [if_pos he]; rfl
    · rw [if_neg he]; exact h

theorem getFile_foldl_copyStep_mem (dest : List String) :
    ∀ (es : List (List String × String)) (st : FS) (p : List String)
      (c : String), (p, c) ∈ es → (es.map (fun e => e.1)).Nodup →
      getFile (es.foldl (copyStep dest) st) (dest ++ p) = some c := by
  intro es
  induction es with
  | nil => intro st p c h _; simp at h
  | cons e es ih =>
    intro st p c hmem hnd
    have hnd' : (e.1 :: es.map (fun x => x.1)).Nodup := by
      simpa only [List.map_cons] using hnd
    rw [List.foldl_cons]
    rcases List.mem_cons.mp hmem with he | he
    · subst he
      have hkey : p ∉ es.map (fun x => x.1) := (List.nodup_cons.mp hnd').1
      rw [getFile_foldl_copyStep_untouched dest es _ _ ?hu,
        getFile_copyStep, if_pos rfl]
      case hu =>
        intro e' he' heq
        exact hkey (by
          rw [← List.append_cancel_left heq]
          exact List.mem_map_of_mem (fun x => x.1) he')
    · exact ih _ p c he (List.nodup_cons.mp hnd').2

/-- C4: the fetch copy `_copy_scripts` (used by the git, archive and
local-directory sources) is an additive merge: every source file lands at
its relative path in the destination with its content, destination files
at paths not written by the source keep their old content, and any partial
run (a prefix of the copy loop, as after a mid-way failure) never deletes
a file that existed before. -/
theorem copy_scripts_additive_merge (fs : FS) (dest : List String)
    (srcFiles : List (List String × String))
    (hnd : (srcFiles.map (fun e => e.1)).Nodup) :
    (∀ p c, (p, c) ∈ srcFiles →
      getFile (copy_scripts fs dest srcFiles) (dest ++ p) = some c)
    ∧ (∀ q, (∀ e ∈ srcFiles, dest ++ e.1 ≠ q) →
      getFile (copy_scripts fs dest srcFiles) q = getFile fs q)
    ∧ (∀ pre post, srcFiles = pre ++ post → ∀ q,
      (getFile fs q).isSome = true →
      (getFile (copy_scripts fs dest pre) q).isSome = true) := by
  refine ⟨?_, ?_, ?_⟩
  · intro p c hmem
    exact getFile_foldl_copyStep_mem dest srcFiles _ p c hmem hnd
  · intro q hq
    exact getFile_foldl_copyStep_untouched dest srcFiles _ q hq
  · intro pre post _ q h
    exact getFile_foldl_copyStep_isSome dest pre _ q h

theorem copy_scripts_additive_merge_witness :
    getFile (copy_scripts
        (FS.mk [[]] [(["keep"], "old"), (["a", "install.sh"], "primary")] [])
        ["@r"] [(["a", "install.sh"], "new")]) ["@r", "a", "install.sh"]
      = some "new"
    ∧ getFile (copy_scripts
        (FS.mk [[]] [(["keep"], "old"), (["a", "install.sh"], "primary")] [])
        ["@r"] [(["a", "install.sh"], "new")]) ["keep"]
      = getFile (FS.mk [[]] [(["keep"], "old"), (["a", "install.sh"], "primary")] [])
        ["keep"] :=
  ⟨(copy_scripts_additive_merge
      (FS.mk [[]] [(["keep"], "old"), (["a", "install.sh"], "primary")] [])
      ["@r"] [(["a", "install.sh"], "new")] (by decide)).1
      ["a", "install.sh"] "new" (by decide),
   (copy_scripts_additive_merge
      (FS.mk [[]] [(["keep"], "old"), (["a", "install.sh"], "primary")] [])
      ["@r"] [(["a", "install.sh"], "new")] (by decide)).2.1
      ["keep"] (by decide)⟩

/-- C5 counterexample: a bare filesystem path has no URL scheme, and
`create_downloader` raises `ValueError("Unsupported URL scheme: ")` for it
instead of selecting the local-source handler. -/
theorem bare_path_raises_unsupported_scheme :
    create_downloader "/tmp/scripts"
      = Except.error "Unsupported URL scheme: " := by
  rfl

/-- C5 amended: only a `file` scheme selects the local-source handler (a
bare path with empty scheme is rejected); for a `file://` source, a single
file is copied to the destination under its basename and made executable,
and a directory is copied with the additive `_copy_scripts`, preferring
its `install` subdirectory when present, else the directory's own
contents. -/
theorem file_url_dispatch_and_local_copy :
    (∀ url, pyStartswith "git@" url = false → pyStartswith "git://" url = false →
      String.mk ((urlparse_scheme url).data.map Char.toLower) = "file" →
      create_downloader url = Except.ok (DownloaderKind.file url))
    ∧ (∀ fs dest name content,
        getFile (file_download fs dest (LocalSource.file name content)).2
            (dest ++ [name]) = some content
        ∧ (dest ++ [name])
            ∈ (file_download fs dest (LocalSource.file name content)).2.execs
        ∧ (file_download fs dest (LocalSource.file name content)).1 = 0)
    ∧ (∀ fs dest ifs afs,
        file_download fs dest (LocalSource.dir (some ifs) afs)
          = (0, copy_scripts (ensureDirs fs [dest]) dest ifs))
    ∧ (∀ fs dest afs,
        file_download fs dest (LocalSource.dir none afs)
          = (0, copy_scripts (ensureDirs fs [dest]) dest afs)) := by
  refine ⟨?_, ?_, ?_, ?_⟩
  · intro url h1 h2 h3
    unfold create_downloader
    rw [h1]
    simp only [Bool.false_eq_true, if_false, h3, h2, Bool.false_or]
    rw [if_neg (by decide), if_neg (by decide)]
    simp
  · intro fs dest name content
    refine ⟨?_, ?_, rfl⟩
    · have h : getFile (file_download fs dest (LocalSource.file name content)).2
            (dest ++ [name])
          = getFile (setFile (ensureDirs (ensureDirs fs [dest])
              [(dest ++ [name]).dropLast]) (dest ++ [name]) content)
            (dest ++ [name]) := rfl
      rw [h, getFile_setFile, if_pos rfl]
    · simp [file_download, chmod755, setFile, ensureDirs]
  · intro fs dest ifs afs
    rfl
  · intro fs dest afs
    rfl

theorem file_url_dispatch_and_local_copy_witness :
    create_downloader "file:///tmp/x"
      = Except.ok (DownloaderKind.file "file:///tmp/x") :=
  file_url_dispatch_and_local_copy.1 "file:///tmp/x" (by decide) (by decide)
    (by decide)

theorem mk_data_append (a b : String) : String.mk (a.data ++ b.data) = a ++ b := by
  rw [← String.data_append]

theorem replaceFirst_git_head (l : List Char) :
    replaceFirst "git://".data "https://".data
        ('g' :: 'i' :: 't' :: ':' :: '/' :: '/' ::l) = "https://".data ++ l := by
  have hp : ("git://".data).isPrefixOf ('g' :: 'i' :: 't' :: ':' :: '/' :: '/' ::l) = true := by
    simp [List.isPrefixOf]
  calc replaceFirst "git://".data "https://".data ('g' :: 'i' :: 't' :: ':' :: '/' :: '/' ::l)
      = "https://".data ++ ('g' :: 'i' :: 't' :: ':' :: '/' :: '/' ::l).drop "git://".data.length := by
        simp only [replaceFirst, hp, if_true]
    _ = "https://".data ++ l := rfl

theorem repoName_toOption_congr (v w : String)
    (hv : pyStartswith "git@" v = false) (hw : pyStartswith "git@" w = false)
    (hsv : urlparse_scheme v ≠ "") (hsw : urlparse_scheme w ≠ "")
    (hp : (urlparse_path v).data = (urlparse_path w).data) :
    (get_repo_name_from_url v).toOption = (get_repo_name_from_url w).toOption := by
  simp only [get_repo_name_from_url]
  rw [hv, hw]
  simp only [Bool.false_eq_true, if_false]
  rw [if_pos hsv, if_pos hsw, hp]
  split_ifs <;> simp [Except.toOption]

/-- C6 counterexample: for the URL `git://github.com/user/repo;x`,
`urlparse` keeps the `;x` params in the path for the `git` scheme but
strips them for its `https://` rewrite (the normalized form of the same
URL), so the two forms derive different repository identifiers, `repo;x`
versus `repo`, and hence different `@`-prefixed overlay directory names. -/
theorem git_https_repo_name_divergence :
    normalize_url "git://github.com/user/repo;x"
      = "https://github.com/user/repo;x"
    ∧ (get_repo_name_from_url "git://github.com/user/repo;x").toOption
      = some "repo;x"
    ∧ (get_repo_name_from_url "https://github.com/user/repo;x").toOption
      = some "repo"
    ∧ ((get_repo_name_from_url "git://github.com/user/repo;x").toOption).map
        overlayDirName
      ≠ ((get_repo_name_from_url "https://github.com/user/repo;x").toOption).map
        overlayDirName := by
  decide

/-- C6 amended: a `git://` URL is rewritten to the `https://` form (the
leading occurrence replaced) before the git downloader receives it, and a
`git@` SSH-style address is passed through verbatim; a `git://` URL and
its `https://` equivalent derive the same repository identifier — and
hence the same `@`-prefixed overlay destination directory name — provided
the URL holds no `;` after the scheme (otherwise `urlparse` strips
`;params` from the last path segment for the `https` scheme but not for
`git`, and the identifiers can differ). -/
theorem git_scheme_equivalence (t u : String)
    (hu : pyStartswith "git@" u = true) :
    normalize_url ("git://" ++ t) = "https://" ++ t
    ∧ create_downloader ("git://" ++ t)
        = Except.ok (DownloaderKind.git ("https://" ++ t))
    ∧ create_downloader u = Except.ok (DownloaderKind.git u)
    ∧ (';' ∉ t.data →
        (get_repo_name_from_url ("git://" ++ t)).toOption
          = (get_repo_name_from_url ("https://" ++ t)).toOption)
    ∧ (';' ∉ t.data →
        ((get_repo_name_from_url ("git://" ++ t)).toOption).map overlayDirName
          = ((get_repo_name_from_url ("https://" ++ t)).toOption).map
            overlayDirName) := by
  have hd1 : ("git://" ++ t).data = 'g' :: 'i' :: 't' :: ':' :: '/' :: '/' ::t.data := by
    simp [String.data_append]
  have hd2 : ("https://" ++ t).data
      = 'h' :: 't' :: 't' :: 'p' :: 's' :: ':' :: '/' :: '/' ::t.data := by
    simp [String.data_append]
  have hpre1 : pyStartswith "git://" ("git://" ++ t) = true := by
    simp [pyStartswith, hd1, List.isPrefixOf]
  have hpre2 : pyStartswith "git@" ("git://" ++ t) = false := by
    simp [pyStartswith, hd1, List.isPrefixOf]
  have hpre3 : pyStartswith "git@" ("https://" ++ t) = false := by
    simp [pyStartswith, hd2, List.isPrefixOf]
  have hs1 : urlparse_scheme ("git://" ++ t) = "git" := by
    unfold urlparse_scheme
    rw [hd1]
    rfl
  have hs2 : urlparse_scheme ("https://" ++ t) = "https" := by
    unfold urlparse_scheme
    rw [hd2]
    rfl
  have hn : normalize_url ("git://" ++ t) = "https://" ++ t := by
    unfold normalize_url
    rw [if_pos hpre1, hd1, replaceFirst_git_head, mk_data_append]
  have hrest : dropNetloc ('/' :: '/' ::t.data)
      = t.data.dropWhile (fun c => c ≠ '/' && c ≠ '?' && c ≠ '#') := by
    unfold dropNetloc
    rw [if_pos (by simp [List.isPrefixOf])]
    rfl
  have hpath : ';' ∉ t.data → (urlparse_path ("git://" ++ t)).data
      = (urlparse_path ("https://" ++ t)).data := by
    intro hsemi
    have hnosemi : ';' ∉ ((t.data.dropWhile
        (fun c => c ≠ '/' && c ≠ '?' && c ≠ '#')).takeWhile
          (fun c => c ≠ '#')).takeWhile (fun c => c ≠ '?') := by
      intro hm
      exact hsemi ((((List.takeWhile_sublist _).trans
        (List.takeWhile_sublist _)).trans (List.dropWhile_sublist _)).subset hm)
    have hG : urlparse_path ("git://" ++ t)
        = String.mk (((t.data.dropWhile
            (fun c => c ≠ '/' && c ≠ '?' && c ≠ '#')).takeWhile
              (fun c => c ≠ '#')).takeWhile (fun c => c ≠ '?')) := by
      simp only [urlparse_path, urlPath]
      rw [hd1,
        show (splitScheme ('g' :: 'i' :: 't' :: ':' :: '/' :: '/' ::t.data)).1
          = ['g', 'i', 't'] from rfl,
        show (splitScheme ('g' :: 'i' :: 't' :: ':' :: '/' :: '/' ::t.data)).2
          = '/' :: '/' ::t.data from rfl,
        hrest, if_neg (fun h => absurd h.1 (by decide))]
    have hH : urlparse_path ("https://" ++ t)
        = String.mk (((t.data.dropWhile
            (fun c => c ≠ '/' && c ≠ '?' && c ≠ '#')).takeWhile
              (fun c => c ≠ '#')).takeWhile (fun c => c ≠ '?')) := by
      simp only [urlparse_path, urlPath]
      rw [hd2,
        show (splitScheme ('h' :: 't' :: 't' :: 'p' :: 's' :: ':' :: '/' :: '/' ::t.data)).1
          = ['h', 't', 't', 'p', 's'] from rfl,
        show (splitScheme ('h' :: 't' :: 't' :: 'p' :: 's' :: ':' :: '/' :: '/' ::t.data)).2
          = '/' :: '/' ::t.data from rfl,
        hrest, if_neg (fun h => hnosemi h.2)]
    rw [hG, hH]
  have hrepo : ';' ∉ t.data → (get_repo_name_from_url ("git://" ++ t)).toOption
      = (get_repo_name_from_url ("https://" ++ t)).toOption :=
    fun hsemi => repoName_toOption_congr _ _ hpre2 hpre3
      (by rw [hs1]; decide) (by rw [hs2]; decide) (hpath hsemi)
  refine ⟨hn, ?_, ?_, hrepo,
    fun hsemi => congrArg (Option.map overlayDirName) (hrepo hsemi)⟩
  · unfold create_downloader
    rw [hpre2]
    simp only [Bool.false_eq_true, if_false, hpre1, Bool.true_or, if_true]
    rw [hn]
  · simp [create_downloader, hu]

theorem git_scheme_equivalence_witness :
    create_downloader "git@github.com:user/repo.git"
      = Except.ok (DownloaderKind.git "git@github.com:user/repo.git")
    ∧ (get_repo_name_from_url ("git://" ++ "github.com/user/repo.git")).toOption
      = (get_repo_name_from_url ("https://" ++ "github.com/user/repo.git")).toOption :=
  ⟨(git_scheme_equivalence "github.com/user/repo.git"
      "git@github.com:user/repo.git" (by decide)).2.2.1,
   (git_scheme_equivalence "github.com/user/repo.git"
      "git@github.com:user/repo.git" (by decide)).2.2.2.1 (by decide)⟩

theorem toNat_ofNat_small (n : Nat) (h1 : n ≤ 122) : (Char.ofNat n).toNat = n := by
  have hv : n.isValidChar := Or.inl (by omega)
  simp only [Char.ofNat, hv, dite_true, Char.ofNatAux, Char.toNat]
  rfl

theorem toLower_idem (c : Char) :
    Char.toLower (Char.toLower c) = Char.toLower c := by
  show Char.toLower (if c.toNat ≥ 65 ∧ c.toNat ≤ 90
      then Char.ofNat (c.toNat + 32) else c)
    = (if c.toNat ≥ 65 ∧ c.toNat ≤ 90 then Char.ofNat (c.toNat + 32) else c)
  by_cases h : c.toNat ≥ 65 ∧ c.toNat ≤ 90
  · simp only [h, if_true]
    have ht : (Char.ofNat (c.toNat + 32)).toNat = c.toNat + 32 :=
      toNat_ofNat_small _ (by omega)
    show (if (Char.ofNat (c.toNat + 32)).toNat ≥ 65
        ∧ (Char.ofNat (c.toNat + 32)).toNat ≤ 90 then _ else _) = _
    rw [ht]
    rw [if_neg (by omega)]
  · simp only [h, if_false]
    show (if c.toNat ≥ 65 ∧ c.toNat ≤ 90 then _ else _) = _
    rw [if_neg h]

theorem pyLower_idem (s : String) : pyLower (pyLower s) = pyLower s := by
  simp only [pyLower, List.map_map]
  congr 1
  exact List.map_congr_left (fun c _ => toLower_idem c)

/-- C8: architecture normalization maps the x86-64 synonyms to `amd64`,
the 64-bit ARM synonyms to `arm64`, any other machine token whose
lower-casing begins with `arm` to `arm`, the 32-bit x86 synonyms to
`i386`, lower-cases and passes through everything else unchanged, and is
idempotent. -/
theorem arch_normalization (s : String) :
    (get_arch "x86_64" = "amd64" ∧ get_arch "amd64" = "amd64"
      ∧ get_arch "aarch64" = "arm64" ∧ get_arch "arm64" = "arm64"
      ∧ get_arch "armv7l" = "arm" ∧ get_arch "i386" = "i386"
      ∧ get_arch "i686" = "i386")
    ∧ (¬(pyLower s = "x86_64" ∨ pyLower s = "amd64") →
       ¬(pyLower s = "aarch64" ∨ pyLower s = "arm64") →
       pyStartswith "arm" (pyLower s) = true → get_arch s = "arm")
    ∧ (¬(pyLower s = "x86_64" ∨ pyLower s = "amd64") →
       ¬(pyLower s = "aarch64" ∨ pyLower s = "arm64") →
       pyStartswith "arm" (pyLower s) = false →
       ¬(pyLower s = "i386" ∨ pyLower s = "i686") →
       get_arch s = pyLower s)
    ∧ get_arch (get_arch s) = get_arch s := by
  refine ⟨by decide, ?_, ?_, ?_⟩
  · intro h1 h2 h3
    unfold get_arch
    rw [if_neg h1, if_neg h2, if_pos h3]
  · intro h1 h2 h3 h4
    unfold get_arch
    rw [if_neg h1, if_neg h2, if_neg (by simp [h3]), if_neg h4]
  · by_cases h1 : pyLower s = "x86_64" ∨ pyLower s = "amd64"
    · have hv : get_arch s = "amd64" := by
        unfold get_arch
        rw [if_pos h1]
      rw [hv]
      decide
    · by_cases h2 : pyLower s = "aarch64" ∨ pyLower s = "arm64"
      · have hv : get_arch s = "arm64" := by
          unfold get_arch
          rw [if_neg h1, if_pos h2]
        rw [hv]
        decide
      · by_cases h3 : pyStartswith "arm" (pyLower s) = true
        · have hv : get_arch s = "arm" := by
            unfold get_arch
            rw [if_neg h1, if_neg h2, if_pos h3]
          rw [hv]
          decide
        · by_cases h4 : pyLower s = "i386" ∨ pyLower s = "i686"
          · have hv : get_arch s = "i386" := by
              unfold get_arch
              rw [if_neg h1, if_neg h2, if_neg h3, if_pos h4]
            rw [hv]
            decide
          · have hv : get_arch s = pyLower s := by
              unfold get_arch
              rw [if_neg h1, if_neg h2, if_neg h3, if_neg h4]
            rw [hv]
            unfold get_arch
            rw [pyLower_idem s, if_neg h1, if_neg h2, if_neg h3, if_neg h4]

theorem arch_normalization_witness :
    get_arch "RISCV64" = "riscv64" ∧ get_arch "ARMV6L" = "arm" :=
  ⟨(arch_normalization "RISCV64").2.2.1 (by decide) (by decide) (by decide)
(by decide),
   (arch_normalization "ARMV6L").2.1 (by decide) (by decide) (by decide)⟩

/-- C10: neither `list --all` nor plain `list` ever reports a name that
starts with the overlay marker `@`: such directory entries are skipped
when tool candidates are enumerated in every root, so overlay roots nested
under the install directory never appear as tool names. -/
theorem list_skips_overlay_dirs (fs : FS) (env : Env) (n : String) :
    (n ∈ list_all_tools fs → pyStartswith "@" n = false)
    ∧ (n ∈ list_current_tools fs env → pyStartswith "@" n = false) := by
  constructor
  · intro hmem
    simp only [list_all_tools, List.mem_insertionSort, List.mem_dedup,
      List.mem_flatMap, List.mem_filter] at hmem
    obtain ⟨root, _, _, hp⟩ := hmem
    have hp2 := (Bool.and_eq_true _ _).mp hp
    simpa using hp2.1
  · intro hmem
    simp only [list_current_tools, List.mem_insertionSort, List.mem_filter,
      List.mem_dedup, List.mem_flatMap] at hmem
    obtain ⟨⟨root, _, _, hp⟩, _⟩ := hmem
    simpa using hp

theorem list_skips_overlay_dirs_witness :
    pyStartswith "@" "foo" = false ∧ "foo" ∈ list_all_tools (FS.mk
      [[], ["@ov"], ["foo"], ["foo", "universal"],
        ["foo", "universal", "general"]]
      [(["foo", "universal", "general", "install.sh"], "x")] []) :=
  ⟨(list_skips_overlay_dirs (FS.mk
      [[], ["@ov"], ["foo"], ["foo", "universal"],
        ["foo", "universal", "general"]]
      [(["foo", "universal", "general", "install.sh"], "x")] [])
      (Env.mk "linux" ["linux"] "amd64") "foo").1 (by decide),
   by decide⟩

end Nmsi
